import Mathlib

/-
A shallow embedding of the exchange-rates client (src/exchange-rates-api.ts)
together with theorems checking the specification claims against it.

The instance fields of the ExchangeRatesApi class become a Config structure;
each chainable method becomes a Config-transforming function; throwing methods
return Except Err; JS numbers carry exact rational values; JS objects become
association lists that keep insertion order, as JS string-keyed objects do.

The imported collaborators that are not part of the provided sources
(currencies.ts, query-string-builder.ts, the date utilities in utils.ts) are
modelled from the specification and marked as such in their doc comments.
-/

namespace ExchangeRates

attribute [local semireducible] Rat.add Rat.mul Rat.sub Rat.inv

/-- A calendar date, the normalized form produced by the date utilities. -/
structure CalDate where
  year : Int
  month : Nat
  day : Nat
deriving DecidableEq

/-- date-fns getYear: the year component of a date. -/
def getYear (d : CalDate) : Int := d.year

/-- date-fns isAfter: whether date a is chronologically after date b. -/
def isAfter (a b : CalDate) : Bool :=
  if a.year = b.year then
    if a.month = b.month then decide (b.day < a.day)
    else decide (b.month < a.month)
  else decide (b.year < a.year)

/-- The _from field of the class: the sentinel string "latest" or a date. -/
inductive FromDate where
  | latest
  | date (d : CalDate)
deriving DecidableEq

/-- The error kinds of the specification taxonomy; each constructor stands for
one distinct throw site of the source (every site throws an ExchangeRatesError
with a fixed message, except the non-200 case, which the fetch catch handler
wraps into the uniform transport failure). -/
inductive Err where
  | invalidCurrency (code : String)
  | invalidDateRange
  | invalidDateOrder
  | unsupportedHistoricalYear
  | invalidArgumentNotInteger
  | invalidArgumentNegative
  | fetchFailed
deriving DecidableEq

/-- The mutable instance state of the ExchangeRatesApi class. -/
structure Config where
  _apiBaseUrl : String
  _accessKey : String
  _base : Option String := none
  _symbols : Option (List String) := none
  _from : FromDate := .latest
  _to : Option CalDate := none
deriving DecidableEq

/-- Modelled from the spec: the date utility parseDate (utils.ts is not among
the provided sources). Per the external-interface section it parses an input
date value into a normalized calendar date; on an already normalized calendar
date it is the identity. -/
def parseDate (d : CalDate) : CalDate := d

/-- Method at(date): sets the from date for a single-day historical request. -/
def atDate (c : Config) (d : CalDate) : Config := { c with _from := .date (parseDate d) }

/-- Method latest(): resets the from selector to the sentinel. -/
def latest (c : Config) : Config := { c with _from := .latest }

/-- Method from(date): sets the start of a date range. -/
def fromDate (c : Config) (d : CalDate) : Config := { c with _from := .date (parseDate d) }

/-- Method to(date): sets the end of a date range. -/
def toDate (c : Config) (d : CalDate) : Config := { c with _to := some (parseDate d) }

/-- Method _isHistoryRequest: the request targets /history iff _to is set. -/
def _isHistoryRequest (c : Config) : Bool := c._to.isSome

/-- Method _validate, translated branch by branch: inside a history request a
sentinel from date throws first, then a from date after the to date; in every
request a concrete from date before 1999 throws last. A throw ends execution,
so the sequence of throws becomes nested alternatives. -/
def _validate (c : Config) : Except Err Unit :=
  match c._to with
  | some t =>
    match c._from with
    | .latest => .error .invalidDateRange
    | .date f =>
      if isAfter f t then .error .invalidDateOrder
      else if getYear f < 1999 then .error .unsupportedHistoricalYear
      else .ok ()
  | none =>
    match c._from with
    | .latest => .ok ()
    | .date f => if getYear f < 1999 then .error .unsupportedHistoricalYear else .ok ()

/-- JS String.prototype.toUpperCase on the ASCII currency codes: uppercase
every character. -/
def toUpperStr (s : String) : String := ⟨s.data.map Char.toUpper⟩

/-- Modelled from the spec: the known currency table (currencies.ts is not
among the provided sources). Per the data-model section it is a fixed set of
valid three-letter currency codes used only for membership validation; these
are the codes served by the wrapped API. -/
def currencies : List String :=
  ["AUD", "BGN", "BRL", "CAD", "CHF", "CNY", "CZK", "DKK", "EUR", "GBP",
   "HKD", "HRK", "HUF", "IDR", "ILS", "INR", "ISK", "JPY", "KRW", "MXN",
   "MYR", "NOK", "NZD", "PHP", "PLN", "RON", "RUB", "SEK", "SGD", "THB",
   "TRY", "USD", "ZAR"]

/-- Method _validateCurrency: membership test against the currency table. -/
def _validateCurrency (currency : String) : Except Err Unit :=
  if currencies.contains currency then .ok () else .error (.invalidCurrency currency)

/-- Method base(currency): uppercase the code, validate it, store it. -/
def base (c : Config) (currency : String) : Except Err Config :=
  let currencyUpper := toUpperStr currency
  match _validateCurrency currencyUpper with
  | .error e => .error e
  | .ok _ => .ok { c with _base := some currencyUpper }

/-- The validation loop of the symbols method: uppercase and validate each
code in order, failing on the first invalid entry. -/
def validateSymbolList : List String → Except Err (List String)
  | [] => .ok []
  | x :: xs =>
    let up := toUpperStr x
    match _validateCurrency up with
    | .error e => .error e
    | .ok _ =>
      match validateSymbolList xs with
      | .error e => .error e
      | .ok ys => .ok (up :: ys)

/-- Method symbols(currencies): validate every code, then store the list. -/
def symbols (c : Config) (cs : List String) : Except Err Config :=
  match validateSymbolList cs with
  | .error e => .error e
  | .ok ys => .ok { c with _symbols := some ys }

/-- Left-pad a natural number to two digits. -/
def pad2 (n : Nat) : String := if n < 10 then "0" ++ toString n else toString n

/-- Left-pad a natural number to four digits. -/
def pad4 (n : Nat) : String :=
  if n < 10 then "000" ++ toString n
  else if n < 100 then "00" ++ toString n
  else if n < 1000 then "0" ++ toString n
  else toString n

/-- Modelled from the spec: the date utility formatDate (utils.ts is not among
the provided sources). Per the external-interface section it renders a
normalized date in ISO YYYY-MM-DD form; the supported years are 1999 and
later, hence nonnegative. -/
def formatDate (d : CalDate) : String :=
  pad4 d.year.toNat ++ "-" ++ pad2 d.month ++ "-" ++ pad2 d.day

/-- One query-string parameter: key, value, and whether the value gets
URL-encoded when rendered. -/
structure QSParam where
  key : String
  value : String
  encode : Bool

/-- Modelled from the spec: value encoding in query-string-builder.ts (not
among the provided sources). The one place the spec distinguishes encoded from
unencoded rendering is the comma separator of the symbols value, so encoding
percent-escapes the comma; every other character used in values (letters,
digits, the hyphen of ISO dates) is unreserved and unchanged. -/
def encodeValue (v : String) : String := v.replace "," "%2C"

/-- Modelled from the spec: QueryStringBuilder rendering (not among the
provided sources). No parameters render as the empty string; otherwise a
question mark followed by key=value pairs joined with ampersands, encoding
the value only when the parameter asks for it. -/
def qsToString (ps : List QSParam) : String :=
  match ps with
  | [] => ""
  | _ =>
    "?" ++ String.intercalate "&"
      (ps.map fun p => p.key ++ "=" ++ (if p.encode then encodeValue p.value else p.value))

/-- The path segment chosen by _buildUrl: "history" for a range request, else
"latest" for the sentinel or the formatted single date. -/
def pathSegment (c : Config) : String :=
  if _isHistoryRequest c then "history"
  else
    match c._from with
    | .latest => "latest"
    | .date d => formatDate d

/-- The start_at and end_at parameters added first inside the history branch
of _buildUrl; outside that branch nothing is added. The source renders an
unset date as the empty string, which validation makes unreachable. -/
def historyParams (c : Config) : List QSParam :=
  if _isHistoryRequest c then
    [⟨"start_at", (match c._from with | .date f => formatDate f | .latest => ""), true⟩,
     ⟨"end_at", (match c._to with | some t => formatDate t | none => ""), true⟩]
  else []

/-- Method _buildUrl: path from the date selector, then the conditional
parameters exactly in source order: start_at, end_at, base, symbols (with the
unencoded comma separator), access_key; each appended only when set. -/
def _buildUrl (c : Config) : String :=
  let qs := historyParams c
  let qs := qs ++ (match c._base with | some b => [⟨"base", b, true⟩] | none => [])
  let qs := qs ++
    (match c._symbols with
     | some s => [⟨"symbols", String.intercalate "," s, false⟩]
     | none => [])
  let qs := qs ++ (if c._accessKey = "" then [] else [⟨"access_key", c._accessKey, true⟩])
  c._apiBaseUrl ++ "/" ++ pathSegment c ++ qsToString qs

/-- The parameters that follow the date parameters, in the order the source
appends them; used to state the URL-shape theorem. -/
def tailParams (c : Config) : List QSParam :=
  (match c._base with | some b => [⟨"base", b, true⟩] | none => []) ++
  (match c._symbols with
   | some s => [⟨"symbols", String.intercalate "," s, false⟩]
   | none => []) ++
  (if c._accessKey = "" then [] else [⟨"access_key", c._accessKey, true⟩])

/-- The url getter: validate, then build. The configuration is returned
alongside the result to make explicit that the getter reads the instance state
and never writes it. -/
def urlGet (c : Config) : Config × Except Err String :=
  (c, match _validate c with
      | .error e => .error e
      | .ok _ => .ok (_buildUrl c))

/-- A JSON rate payload: a number, or a string-keyed object in insertion
order. -/
inductive RVal where
  | num (q : ℚ)
  | obj (entries : List (String × RVal))

/-- The part of an HTTP response that fetch inspects: the status code and the
rates field of the JSON body. -/
structure HttpResponse where
  status : Nat
  rates : List (String × RVal)

/-- The collapsing step of fetch: a rates object with exactly one key yields
the bare value under that key, otherwise the full mapping. -/
def shapeRates (rates : List (String × RVal)) : RVal :=
  match rates with
  | [(_, v)] => v
  | _ => .obj rates

/-- Method fetch, as a function of the configuration and the response the
network would deliver: validation runs synchronously first (its error
propagates unwrapped, before any request is issued); a non-200 status is
thrown and wrapped by the catch handler into the uniform transport failure;
on success the rates object is collapsed. -/
def fetchReq (c : Config) (resp : HttpResponse) : Except Err RVal :=
  match _validate c with
  | .error e => .error e
  | .ok _ =>
    if resp.status = 200 then .ok (shapeRates resp.rates) else .error .fetchFailed

/-- The decimal-places guard at the head of avg: a provided argument must be
an integer (first check) and nonnegative (second check). -/
def dpCheck (dp : Option ℚ) : Option Err :=
  match dp with
  | none => none
  | some q =>
    if !q.isInt then some .invalidArgumentNotInteger
    else if q < 0 then some .invalidArgumentNegative
    else none

/-- Floor of an exact rational. -/
def floorQ (q : ℚ) : Int := q.num.fdiv q.den

/-- JS Number.prototype.toFixed on exact rationals: the integer n for which
n / 10^f is nearest to x, ties resolved to the larger n, then divided back. -/
def toFixedQ (x : ℚ) (f : Nat) : ℚ := (floorQ (x * 10 ^ f + 1 / 2) : ℚ) / 10 ^ f

/-- The rounding applied to each mean in avg. The guard admits only an
omitted argument or a nonnegative integer, and toFixed treats an omitted
digits argument as zero digits, so the line that would keep full precision
(it compares against null, never produced by the default) is unreachable. -/
def applyFixed (dp : Option ℚ) (x : ℚ) : ℚ :=
  match dp with
  | none => toFixedQ x 0
  | some q => toFixedQ x q.num.toNat

/-- Append one rate under a key of the merged object, creating the key at the
end on first sight, as JS object insertion order does. -/
def pushRate (m : List (String × List ℚ)) (k : String) (q : ℚ) : List (String × List ℚ) :=
  match m with
  | [] => [(k, [q])]
  | (k2, vs) :: rest =>
    if k2 = k then (k2, vs ++ [q]) :: rest else (k2, vs) :: pushRate rest k q

/-- Process one per-date value of the fetched mapping: object values
contribute every numeric entry to the merged object, other values are
skipped by the typeof check. -/
def mergeEntry (m : List (String × List ℚ)) (v : RVal) : List (String × List ℚ) :=
  match v with
  | .num _ => m
  | .obj es =>
    es.foldl (fun m2 kv => match kv.2 with | .num q => pushRate m2 kv.1 q | .obj _ => m2) m

/-- The merged per-currency rate lists built by avg from the fetched value
(JS Object.values of a number is empty). -/
def mergedObj (fetched : RVal) : List (String × List ℚ) :=
  match fetched with
  | .num _ => []
  | .obj es => (es.map (·.2)).foldl mergeEntry []

/-- The arithmetic mean of a rate list, summed with the same left fold from
zero that the source reduce uses. -/
def listAvg (vs : List ℚ) : ℚ := vs.foldl (· + ·) 0 / (vs.length : ℚ)

/-- The post-processing of avg after fetch resolves: a non-history request
returns the fetched value unchanged; a history request merges, averages and
rounds per currency, then collapses a single-key result to its bare value. -/
def avgPost (hist : Bool) (dp : Option ℚ) (fetched : RVal) : RVal :=
  if hist then
    let avgs := (mergedObj fetched).map fun kv => (kv.1, applyFixed dp (listAvg kv.2))
    match avgs with
    | [(_, v)] => .num v
    | _ => .obj (avgs.map fun kv => (kv.1, RVal.num kv.2))
  else fetched

/-- The outcome of a whole avg call: whether the network request was issued
and the settled value or error. -/
structure AvgOutcome where
  networkUsed : Bool
  result : Except Err RVal

/-- Method avg: the decimal-places guard throws synchronously, then fetch
validates, both before any network traffic; only then does the request go
out and the response get averaged. -/
def avg (c : Config) (dp : Option ℚ) (resp : HttpResponse) : AvgOutcome :=
  match dpCheck dp with
  | some e => ⟨false, .error e⟩
  | none =>
    match _validate c with
    | .error e => ⟨false, .error e⟩
    | .ok _ =>
      if resp.status = 200 then
        ⟨true, .ok (avgPost (_isHistoryRequest c) dp (shapeRates resp.rates))⟩
      else ⟨true, .error .fetchFailed⟩

/-- Which error kinds the spec groups under InvalidArgument for avg. -/
def isInvalidArgErr : Err → Bool
  | .invalidArgumentNotInteger => true
  | .invalidArgumentNegative => true
  | _ => false

/-- Whether the configuration holds any concrete date with year before 1999;
used to state the amended historical-year claim. -/
def hasPre1999Date (c : Config) : Bool :=
  (match c._from with | .date f => decide (getYear f < 1999) | .latest => false) ||
  (match c._to with | some t => decide (getYear t < 1999) | none => false)

/-- A freshly constructed client: no base, no symbols, latest rates. -/
def cfgLatestOnly : Config :=
  { _apiBaseUrl := "https://api.exchangeratesapi.io", _accessKey := "" }

/-- A client after from(2021-01-01).to(2021-01-02): a valid range request. -/
def cfgRange2021 : Config :=
  { cfgLatestOnly with _from := .date ⟨2021, 1, 1⟩, _to := some ⟨2021, 1, 2⟩ }

/-- A client whose to date is set to a pre-1999 date while from is still the
sentinel. -/
def cfgPre1999To : Config :=
  { cfgLatestOnly with _from := .latest, _to := some ⟨1998, 6, 15⟩ }

/-- A range request whose two endpoints are the same day. -/
def cfgFromEqTo : Config :=
  { cfgLatestOnly with _from := .date ⟨2021, 1, 1⟩, _to := some ⟨2021, 1, 1⟩ }

/-- A range request with every optional parameter set. -/
def cfgFull : Config :=
  { _apiBaseUrl := "https://api.exchangeratesapi.io", _accessKey := "testkey",
    _base := some "USD", _symbols := some ["USD", "GBP"],
    _from := .date ⟨2021, 1, 1⟩, _to := some ⟨2021, 1, 2⟩ }

/-- The history fixture of the spec: two dates, USD on both, GBP on one. -/
def histFixture : HttpResponse :=
  ⟨200, [("2021-01-01", .obj [("USD", .num 1), ("GBP", .num (mkRat 4 5))]),
         ("2021-01-02", .obj [("USD", .num (mkRat 6 5))])]⟩

/-- The single-rate fixture of the spec. -/
def singleRateResp : HttpResponse := ⟨200, [("USD", .num (mkRat 11 10))]⟩

/-- The two-rate fixture of the spec. -/
def twoRateResp : HttpResponse :=
  ⟨200, [("USD", .num (mkRat 11 10)), ("GBP", .num (mkRat 9 10))]⟩

/-- A date is never chronologically after itself. -/
theorem isAfter_self (d : CalDate) : isAfter d d = false := by
  simp [isAfter]

/-- If a is not after b then the year of a is at most the year of b. -/
theorem year_le_of_isAfter_eq_false {a b : CalDate} (h : isAfter a b = false) :
    a.year ≤ b.year := by
  by_cases hy : a.year = b.year
  · exact le_of_eq hy
  · simp only [isAfter, hy, if_false, decide_eq_false_iff_not, not_lt] at h
    exact h

/-- C10: the date setters at, from and latest write only the from field of
the configuration and leave to, base and symbols unchanged; hence after a
to call, a later at call still leaves the configuration a history request. -/
theorem c10_setters_frame (c : Config) (d d2 : CalDate) :
    (atDate c d)._to = c._to ∧ (atDate c d)._base = c._base ∧
      (atDate c d)._symbols = c._symbols ∧
    (fromDate c d)._to = c._to ∧ (fromDate c d)._base = c._base ∧
      (fromDate c d)._symbols = c._symbols ∧
    (latest c)._to = c._to ∧ (latest c)._base = c._base ∧
      (latest c)._symbols = c._symbols ∧
    _isHistoryRequest (atDate (toDate c d) d2) = true :=
  ⟨rfl, rfl, rfl, rfl, rfl, rfl, rfl, rfl, rfl, rfl⟩

/-- C4: for every valid configuration the url getter is pure and
deterministic: it leaves the configuration unchanged, and a second call on
the returned configuration yields the identical result. -/
theorem c4_buildUrl_pure (c : Config) (_h : _validate c = .ok ()) :
    (urlGet c).1 = c ∧ (urlGet ((urlGet c).1)).2 = (urlGet c).2 :=
  ⟨rfl, rfl⟩

/-- C4 witness: the purity theorem applied to the freshly constructed
client, whose validation succeeds. -/
theorem c4_witness :
    (urlGet cfgLatestOnly).1 = cfgLatestOnly ∧
    (urlGet ((urlGet cfgLatestOnly).1)).2 = (urlGet cfgLatestOnly).2 :=
  c4_buildUrl_pure cfgLatestOnly rfl

/-- C3 counterexample: on a configuration in the Range state, calling
latest() leaves the configuration a history request whose build targets the
history path and whose validation rejects, not a latest request. -/
theorem c3_counterexample :
    _isHistoryRequest (latest cfgRange2021) = true ∧
    pathSegment (latest cfgRange2021) = "history" ∧
    _validate (latest cfgRange2021) = .error .invalidDateRange :=
  ⟨rfl, rfl, rfl⟩

/-- C3 (amended): latest() always resets the from selector to the sentinel,
so from any state without a to date the next build is a latest request; but
it does not clear the to date, so from the Range state the configuration
remains a history request and its validation fails with InvalidDateRange. -/
theorem c3_latest_amended (c : Config) :
    (latest c)._from = .latest ∧
    (c._to = none →
      _isHistoryRequest (latest c) = false ∧ pathSegment (latest c) = "latest") ∧
    (∀ d, c._to = some d →
      _isHistoryRequest (latest c) = true ∧
      _validate (latest c) = .error .invalidDateRange) := by
  refine ⟨rfl, ?_, ?_⟩
  · intro h
    constructor
    · simp [_isHistoryRequest, latest, h]
    · simp [pathSegment, _isHistoryRequest, latest, h]
  · intro d h
    constructor
    · simp [_isHistoryRequest, latest, h]
    · simp [_validate, latest, h]

/-- C3 witness: the amended theorem applied to the fresh client, which has
no to date, so latest() indeed yields a latest request. -/
theorem c3_witness :
    _isHistoryRequest (latest cfgLatestOnly) = false ∧
    pathSegment (latest cfgLatestOnly) = "latest" :=
  (c3_latest_amended cfgLatestOnly).2.1 rfl

/-- C2 counterexample: a configuration whose concrete to date has year 1998
while from is the sentinel fails validation with InvalidDateRange, not with
UnsupportedHistoricalYear as the claim requires. -/
theorem c2_counterexample :
    cfgPre1999To._to = some ⟨1998, 6, 15⟩ ∧
    getYear ⟨1998, 6, 15⟩ < 1999 ∧
    _validate cfgPre1999To = .error .invalidDateRange ∧
    _validate cfgPre1999To ≠ .error .unsupportedHistoricalYear := by
  refine ⟨rfl, by decide, rfl, fun h => ?_⟩
  have h2 : Err.invalidDateRange = Err.unsupportedHistoricalYear := Except.error.inj h
  exact absurd h2 (by decide)

/-- C2 (amended): any configuration holding a concrete date with year before
1999 fails validation, but the error is UnsupportedHistoricalYear exactly
when the from date itself is concrete with year before 1999 and the earlier
range checks pass (from not after to); a pre-1999 to date alone fails with
InvalidDateRange or InvalidDateOrder instead, because only the from date
reaches the year check. -/
theorem c2_year_check_amended (c : Config) :
    (hasPre1999Date c = true → _validate c ≠ .ok ()) ∧
    (_validate c = .error .unsupportedHistoricalYear ↔
      ∃ f, c._from = .date f ∧ getYear f < 1999 ∧
        ∀ t, c._to = some t → isAfter f t = false) := by
  obtain ⟨u, k, b, s, f, t⟩ := c
  cases f with
  | latest =>
    cases t with
    | none =>
      refine ⟨?_, ?_, ?_⟩
      · intro hp
        simp [hasPre1999Date] at hp
      · intro h
        simp [_validate] at h
      · rintro ⟨fd, hf, -, -⟩
        simp at hf
    | some td =>
      refine ⟨?_, ?_, ?_⟩
      · intro hp
        simp [_validate]
      · intro h
        simp [_validate] at h
      · rintro ⟨fd, hf, -, -⟩
        simp at hf
  | date fd =>
    cases t with
    | none =>
      by_cases hy : fd.year < 1999
      · refine ⟨?_, ?_, ?_⟩
        · intro hp
          simp [_validate, getYear, hy]
        · intro h
          refine ⟨fd, rfl, hy, ?_⟩
          intro td htd
          simp at htd
        · intro hex
          simp [_validate, getYear, hy]
      · refine ⟨?_, ?_, ?_⟩
        · intro hp
          simp [hasPre1999Date, getYear, hy] at hp
        · intro h
          simp [_validate, getYear, hy] at h
        · rintro ⟨fd2, hf2, hy2, -⟩
          have heq : fd = fd2 := by simpa using hf2
          have hy3 : fd.year < 1999 := by
            rw [heq]
            exact hy2
          exact absurd hy3 hy
    | some td =>
      cases ha : isAfter fd td with
      | true =>
        refine ⟨?_, ?_, ?_⟩
        · intro hp
          simp [_validate, ha]
        · intro h
          simp [_validate, ha] at h
        · rintro ⟨fd2, hf2, -, hto⟩
          have heq : fd = fd2 := by simpa using hf2
          have ha2 : isAfter fd td = false := by
            rw [heq]
            exact hto td rfl
          rw [ha] at ha2
          exact absurd ha2 (by decide)
      | false =>
        by_cases hy : fd.year < 1999
        · refine ⟨?_, ?_, ?_⟩
          · intro hp
            simp [_validate, ha, getYear, hy]
          · intro h
            refine ⟨fd, rfl, hy, ?_⟩
            intro td2 htd2
            have heq : td = td2 := by simpa using htd2
            rw [← heq]
            exact ha
          · intro hex
            simp [_validate, ha, getYear, hy]
        · refine ⟨?_, ?_, ?_⟩
          · intro hp
            simp [hasPre1999Date, getYear, hy] at hp
            have hyle := year_le_of_isAfter_eq_false ha
            have : fd.year < 1999 := by omega
            exact absurd this hy
          · intro h
            simp [_validate, ha, getYear, hy] at h
          · rintro ⟨fd2, hf2, hy2, -⟩
            have heq : fd = fd2 := by simpa using hf2
            have hy3 : fd.year < 1999 := by
              rw [heq]
              exact hy2
            exact absurd hy3 hy

/-- C2 witness: the amended theorem applied to a single-date request at a
1998 date, which indeed fails validation. -/
theorem c2_witness :
    _validate { cfgLatestOnly with _from := .date ⟨1998, 6, 15⟩ } ≠ .ok () :=
  (c2_year_check_amended { cfgLatestOnly with _from := .date ⟨1998, 6, 15⟩ }).1 (by decide)

/-- C7: for every history request, validation fails with InvalidDateRange
when from is left as the sentinel, fails with InvalidDateOrder when from is
chronologically after to, and succeeds when from equals to with year at
least 1999. -/
theorem c7_range_validation (c : Config) (h : _isHistoryRequest c = true) :
    (c._from = .latest → _validate c = .error .invalidDateRange) ∧
    (∀ f t, c._from = .date f → c._to = some t → isAfter f t = true →
      _validate c = .error .invalidDateOrder) ∧
    (∀ f, c._from = .date f → c._to = some f → 1999 ≤ getYear f →
      _validate c = .ok ()) := by
  obtain ⟨u, k, b, s, f, t⟩ := c
  cases t with
  | none => simp [_isHistoryRequest] at h
  | some td =>
    refine ⟨?_, ?_, ?_⟩
    · intro hf
      obtain rfl : f = FromDate.latest := hf
      simp [_validate]
    · intro fd td2 hf ht ha
      obtain rfl : f = FromDate.date fd := hf
      obtain rfl : td = td2 := by simpa using ht
      simp [_validate, ha]
    · intro fd hf ht hy
      obtain rfl : f = FromDate.date fd := hf
      have htd : td = fd := by simpa using ht
      have hy3 : ¬ fd.year < 1999 := not_lt.mpr hy
      simp [_validate, htd, isAfter_self, hy3]
      exact hy

/-- C7 witness: the range-validation theorem applied to the request whose
endpoints are both 2021-01-01, which validates successfully. -/
theorem c7_witness : _validate cfgFromEqTo = .ok () :=
  (c7_range_validation cfgFromEqTo rfl).2.2 ⟨2021, 1, 1⟩ rfl rfl (by decide)

/-- A valid code point round-trips through Char.ofNat. -/
theorem char_toNat_ofNat_valid (n : Nat) (h : n.isValidChar) :
    (Char.ofNat n).toNat = n := by
  simp only [Char.ofNat, h, dif_pos]
  simp [Char.ofNatAux, Char.toNat, UInt32.toNat, UInt32.ofNatCore]

/-- Uppercasing a character twice equals uppercasing it once. -/
theorem toUpper_idem (c : Char) : Char.toUpper (Char.toUpper c) = Char.toUpper c := by
  simp only [Char.toUpper]
  split
  · next h =>
    have hv : (c.toNat - 32).isValidChar := by
      constructor
      omega
    rw [char_toNat_ofNat_valid _ hv]
    have hno : ¬ (c.toNat - 32 ≥ 97 ∧ c.toNat - 32 ≤ 122) := by omega
    rw [if_neg hno]
  · rfl

/-- Uppercasing a string twice equals uppercasing it once, so a mixed-case
code and its uppercase form are interchangeable inputs. -/
theorem toUpperStr_idem (s : String) : toUpperStr (toUpperStr s) = toUpperStr s := by
  simp only [toUpperStr]
  congr 1
  simp only [List.map_map]
  exact List.map_congr_left fun a _ => toUpper_idem a

/-- C6: setting the base currency succeeds exactly when the uppercased input
is in the known currency table; on success the stored base is the uppercased
code; on failure the error is InvalidCurrency; and any input behaves the
same as its uppercase form, so lowercase and mixed-case codes validate
identically. -/
theorem c6_base_currency (c : Config) (s : String) :
    ((∃ c2, base c s = .ok c2) ↔ currencies.contains (toUpperStr s) = true) ∧
    (∀ c2, base c s = .ok c2 → c2._base = some (toUpperStr s)) ∧
    (currencies.contains (toUpperStr s) = false →
      base c s = .error (.invalidCurrency (toUpperStr s))) ∧
    base c s = base c (toUpperStr s) := by
  cases h : currencies.contains (toUpperStr s) with
  | true =>
    have hm : toUpperStr s ∈ currencies := by simpa using h
    refine ⟨⟨fun _ => rfl,
      fun _ => ⟨{ c with _base := some (toUpperStr s) }, ?_⟩⟩, ?_, ?_, ?_⟩
    · simp [base, _validateCurrency, hm]
    · intro c2 hc2
      simp [base, _validateCurrency, hm] at hc2
      subst hc2
      rfl
    · intro hf
      simp at hf
    · simp [base, _validateCurrency, toUpperStr_idem, hm]
  | false =>
    have hm : toUpperStr s ∉ currencies := by simpa using h
    refine ⟨⟨?_, ?_⟩, ?_, ?_, ?_⟩
    · rintro ⟨c2, hc2⟩
      simp [base, _validateCurrency, hm] at hc2
    · intro ht
      simp at ht
    · intro c2 hc2
      simp [base, _validateCurrency, hm] at hc2
    · intro hf
      simp [base, _validateCurrency, hm]
    · simp [base, _validateCurrency, toUpperStr_idem, hm]

/-- C6 witness: the base theorem applied to the lowercase input "usd",
showing it is accepted and behaves like its uppercase form. -/
theorem c6_witness :
    base cfgLatestOnly "usd" = base cfgLatestOnly (toUpperStr "usd") :=
  (c6_base_currency cfgLatestOnly "usd").2.2.2

/-- A rates object with at least two entries is not collapsed. -/
theorem shapeRates_of_two_le {rs : List (String × RVal)} (h : 2 ≤ rs.length) :
    shapeRates rs = .obj rs := by
  cases rs with
  | nil => simp at h
  | cons x xs =>
    cases xs with
    | nil => simp at h
    | cons y ys => rfl

/-- C5: on a successful fetch (validation passes, HTTP status 200), a rates
object with exactly one key collapses to the bare value under that key, and
a rates object with two or more keys is returned as the full mapping. -/
theorem c5_fetch_collapsing (c : Config) (resp : HttpResponse)
    (hv : _validate c = .ok ()) (hs : resp.status = 200) :
    (∀ k v, resp.rates = [(k, v)] → fetchReq c resp = .ok v) ∧
    (2 ≤ resp.rates.length → fetchReq c resp = .ok (.obj resp.rates)) := by
  constructor
  · intro k v hr
    simp [fetchReq, hv, hs, hr, shapeRates]
  · intro hlen
    simp [fetchReq, hv, hs, shapeRates_of_two_le hlen]

/-- C5 witness: the collapsing theorem applied to the single-rate fixture,
which yields the bare number. -/
theorem c5_witness : fetchReq cfgLatestOnly singleRateResp = .ok (.num (mkRat 11 10)) :=
  (c5_fetch_collapsing cfgLatestOnly singleRateResp rfl rfl).1
    "USD" (.num (mkRat 11 10)) rfl

/-- C8: for every configuration, the built URL uses the history path with
start_at and end_at date parameters when a range is set, the latest path or
the formatted single date otherwise, followed by the base, symbols and
access_key parameters in that order, each present only when set. -/
theorem c8_url_shape (c : Config) :
    (∀ f t, c._from = .date f → c._to = some t →
      _buildUrl c = c._apiBaseUrl ++ "/" ++ "history" ++
        qsToString (⟨"start_at", formatDate f, true⟩ ::
          ⟨"end_at", formatDate t, true⟩ :: tailParams c)) ∧
    (c._to = none → c._from = .latest →
      _buildUrl c = c._apiBaseUrl ++ "/" ++ "latest" ++ qsToString (tailParams c)) ∧
    (∀ d, c._to = none → c._from = .date d →
      _buildUrl c = c._apiBaseUrl ++ "/" ++ formatDate d ++ qsToString (tailParams c)) := by
  refine ⟨?_, ?_, ?_⟩
  · intro f t hf ht
    have hh : _isHistoryRequest c = true := by simp [_isHistoryRequest, ht]
    simp [_buildUrl, pathSegment, historyParams, tailParams, hh, hf, ht]
  · intro hto hf
    have hh : _isHistoryRequest c = false := by simp [_isHistoryRequest, hto]
    simp [_buildUrl, pathSegment, historyParams, tailParams, hh, hf]
  · intro d hto hf
    have hh : _isHistoryRequest c = false := by simp [_isHistoryRequest, hto]
    simp [_buildUrl, pathSegment, historyParams, tailParams, hh, hf]

/-- C8 witness: the URL-shape theorem applied to the fully populated range
request. -/
theorem c8_witness :
    _buildUrl cfgFull = cfgFull._apiBaseUrl ++ "/" ++ "history" ++
      qsToString (⟨"start_at", formatDate ⟨2021, 1, 1⟩, true⟩ ::
        ⟨"end_at", formatDate ⟨2021, 1, 2⟩, true⟩ :: tailParams cfgFull) :=
  (c8_url_shape cfgFull).1 ⟨2021, 1, 1⟩ ⟨2021, 1, 2⟩ rfl rfl

/-- Validation never produces an InvalidArgument error: its errors are the
three date errors only. -/
theorem validate_err_not_invalidArg (c : Config) (e : Err)
    (h : _validate c = .error e) : isInvalidArgErr e = false := by
  unfold _validate at h
  split at h
  · split at h
    · obtain rfl : Err.invalidDateRange = e := Except.error.inj h
      rfl
    · split at h
      · obtain rfl : Err.invalidDateOrder = e := Except.error.inj h
        rfl
      · split at h
        · obtain rfl : Err.unsupportedHistoricalYear = e := Except.error.inj h
          rfl
        · exact absurd h (by simp)
  · split at h
    · exact absurd h (by simp)
    · split at h
      · obtain rfl : Err.unsupportedHistoricalYear = e := Except.error.inj h
        rfl
      · exact absurd h (by simp)

/-- C9: when the decimal-places argument is provided and is not a
nonnegative integer, avg fails with an InvalidArgument error before any
network request is issued; when it is omitted or is a nonnegative integer,
no InvalidArgument error is ever produced. -/
theorem c9_avg_argument_guard (c : Config) (resp : HttpResponse) (dp : Option ℚ) :
    (∀ q, dp = some q → (q.isInt = false ∨ q < 0) →
      (avg c dp resp).networkUsed = false ∧
      ∃ e, (avg c dp resp).result = .error e ∧ isInvalidArgErr e = true) ∧
    ((dp = none ∨ ∃ q, dp = some q ∧ q.isInt = true ∧ 0 ≤ q) →
      ∀ e, (avg c dp resp).result = .error e → isInvalidArgErr e = false) := by
  constructor
  · rintro q rfl hbad
    cases hqi : q.isInt with
    | false =>
      refine ⟨?_, .invalidArgumentNotInteger, ?_, rfl⟩
      · simp [avg, dpCheck, hqi]
      · simp [avg, dpCheck, hqi]
    | true =>
      have hneg : q < 0 := by
        rcases hbad with h1 | h2
        · rw [hqi] at h1
          cases h1
        · exact h2
      refine ⟨?_, .invalidArgumentNegative, ?_, rfl⟩
      · simp [avg, dpCheck, hqi, hneg]
      · simp [avg, dpCheck, hqi, hneg]
  · intro hok e he
    have hdp : dpCheck dp = none := by
      rcases hok with rfl | ⟨q, rfl, hqi, hq0⟩
      · rfl
      · simp [dpCheck, hqi, not_lt.mpr hq0]
    simp only [avg, hdp] at he
    cases hval : _validate c with
    | error e2 =>
      rw [hval] at he
      have h2 : Except.error e2 = Except.error e := he
      obtain rfl : e2 = e := Except.error.inj h2
      exact validate_err_not_invalidArg c e2 hval
    | ok u =>
      cases u
      rw [hval] at he
      by_cases hst : resp.status = 200
      · rw [if_pos hst] at he
        exact absurd he (by simp)
      · rw [if_neg hst] at he
        obtain rfl : Err.fetchFailed = e := Except.error.inj he
        rfl

/-- C9 witness: the guard theorem applied to the negative argument -1,
which is rejected without any network use. -/
theorem c9_witness :
    (avg cfgLatestOnly (some (mkRat (-1) 1)) singleRateResp).networkUsed = false ∧
    ∃ e, (avg cfgLatestOnly (some (mkRat (-1) 1)) singleRateResp).result = .error e ∧
      isInvalidArgErr e = true :=
  (c9_avg_argument_guard cfgLatestOnly singleRateResp (some (mkRat (-1) 1))).1
    (mkRat (-1) 1) rfl (Or.inr (by decide))

/-- C1: at the history fixture of the spec, avg with the decimal-places
argument omitted rounds every per-currency mean to zero decimal places and
returns USD 1 and GBP 1, because toFixed receives the omitted argument and
treats it as zero digits, while the full-precision branch compares against
null, which the guard has already rejected; the same call with one decimal
place returns the exact means USD 1.1 and GBP 0.8, so the merge and the
per-key averaging agree with the claim and only the default rounding
diverges. -/
theorem c1_avg_default_rounds :
    avg cfgRange2021 none histFixture =
      ⟨true, .ok (.obj [("USD", .num 1), ("GBP", .num 1)])⟩ ∧
    avg cfgRange2021 (some 1) histFixture =
      ⟨true, .ok (.obj [("USD", .num (mkRat 11 10)), ("GBP", .num (mkRat 4 5))])⟩ :=
  ⟨rfl, rfl⟩

end ExchangeRates
